import Mathlib

/-!
Verification development for the BDL population proxy service (`src/app.py`).

The development shallowly embeds the Python source: the string
normalisation helpers, the locality-resolution heuristic
(`score` / `_pick_best_locality`), the defensive value extractor
(`_extract_latest_value`), the TTL response cache (`_cache_get` /
`_cache_set`) and the `/bdl/population` HTTP handler.  Fallible Python
code (attribute errors, type errors on malformed JSON) is embedded with
`Except`; the shared mutable cache is embedded by explicit state
passing; wall-clock time is an explicit rational parameter.
-/

namespace BdlApp

/-! ### String helpers (`_norm`, `_safe_lower`, Python `in`)

All of these are written as structural recursions over the character
lists underlying `String`, so that they evaluate inside the kernel. -/

/-- Python `str.split()` with no separator: the maximal runs of
non-whitespace characters (leading/trailing whitespace discarded). -/
def pySplitWs : List Char → List Char → List (List Char)
  | [], acc => if acc = [] then [] else [acc.reverse]
  | c :: cs, acc =>
    if c.isWhitespace then
      if acc = [] then pySplitWs cs [] else acc.reverse :: pySplitWs cs []
    else pySplitWs cs (c :: acc)

/-- Embedding of `_norm`: `" ".join((s or "").strip().split())` —
whitespace-collapsing and trimming; `none` plays the role of Python
`None`. -/
def _norm (s : Option String) : String :=
  String.mk (List.intercalate [' '] (pySplitWs (s.getD "").data []))

/-- Embedding of `_safe_lower`: `_norm(s).lower()` (character-wise
lowering, as `str.lower` restricted to the ASCII range). -/
def _safe_lower (s : Option String) : String :=
  String.mk ((_norm s).data.map Char.toLower)

/-- Is `n` a (contiguous) prefix of `h`? -/
def listPrefixB : List Char → List Char → Bool
  | [], _ => true
  | _ :: _, [] => false
  | a :: as, b :: bs => a = b && listPrefixB as bs

/-- Is `n` a contiguous sublist of `h`? -/
def listInfixB (n : List Char) : List Char → Bool
  | [] => listPrefixB n []
  | b :: t => listPrefixB n (b :: t) || listInfixB n t

/-- Embedding of Python's substring test `needle in hay` on strings. -/
def strIn (needle hay : String) : Bool :=
  listInfixB needle.data hay.data

/-- Python truthiness of an optional string (`if s:`): present and
non-empty. -/
def optStrTruthy : Option String → Bool
  | none => false
  | some s => s ≠ ""

/-! ### Candidate locality records and the resolver -/

/-- A candidate locality record as consumed by `_pick_best_locality`:
the fields the scorer reads (`it.get(...)`), plus `level`/`parentId`
which the handler echoes into `picked_record`.  A field is `none` when
`it.get(...)` returns `None` (key absent or null).  The program reads
one further bit of the dict — its truthiness in `if not best:` — so
`hasOtherKeys` records whether the dict carries any key beyond what the
tracked gets reveal (a null-valued or unrelated key); the empty dict
is the all-`none` record with `hasOtherKeys := false`. -/
structure Candidate where
  id : Option String := none
  name : Option String := none
  unitName : Option String := none
  parentName : Option String := none
  administrativeUnitName : Option String := none
  description : Option String := none
  level : Option Int := none
  parentId : Option String := none
  hasOtherKeys : Bool := false
deriving DecidableEq

/-- Python truthiness of a candidate dict (`if not best:` on a present
record): a dict is truthy exactly when it has at least one key. -/
def candTruthy (c : Candidate) : Bool :=
  c.id.isSome || c.name.isSome || c.unitName.isSome || c.parentName.isSome ||
    c.administrativeUnitName.isSome || c.description.isSome || c.level.isSome ||
    c.parentId.isSome || c.hasOtherKeys

/-- The synthesized text blob of the scorer: the space-join of the
normalized `name`, `unitName`, `parentName`, `administrativeUnitName`
and `description` fields. -/
def blobOf (it : Candidate) : String :=
  String.mk (List.intercalate [' ']
    [(_safe_lower it.name).data, (_safe_lower it.unitName).data, (_safe_lower it.parentName).data,
     (_safe_lower it.administrativeUnitName).data, (_safe_lower it.description).data])

/-- Embedding of the inner `score` function of `_pick_best_locality`
(`m0`, `g0`, `p0`, `w0` are the already-normalized hints, as in the
source). -/
def score (m0 g0 p0 w0 : String) (it : Candidate) : Nat :=
  let name := _safe_lower it.name
  let s1 : Nat := if name = m0 then 50 else if m0 ≠ "" ∧ strIn m0 name then 20 else 0
  let s2 : Nat := s1 + (if g0 ≠ "" ∧ strIn g0 (blobOf it) then 15 else 0)
  let s3 : Nat := s2 + (if p0 ≠ "" ∧ strIn p0 (blobOf it) then 10 else 0)
  let s4 : Nat := s3 + (if w0 ≠ "" ∧ strIn w0 (blobOf it) then 5 else 0)
  if optStrTruthy it.id then s4 + 1 else s4

/-- Embedding of `_pick_best_locality`: guard on the empty list, then
`sorted(items, key=score, reverse=True)[0]`.  Python's `sorted` is the
stable sort; with `reverse=True` an element `a` precedes `b` exactly
when `score b ≤ score a`, ties keeping original order, which is
`List.insertionSort` with that relation. -/
def _pick_best_locality (items : List Candidate) (miejscowosc gmina powiat woj : String) :
    Option Candidate :=
  if items = [] then none
  else
    let m0 := _safe_lower (some miejscowosc)
    let g0 := _safe_lower (some gmina)
    let p0 := _safe_lower (some powiat)
    let w0 := _safe_lower (some woj)
    (List.insertionSort (fun a b => score m0 g0 p0 w0 b ≤ score m0 g0 p0 w0 a) items).head?

/-- The maximum of `f` over a list (0 on the empty list). -/
def listMaxBy {α : Type} (f : α → Nat) : List α → Nat
  | [] => 0
  | c :: t => max (f c) (listMaxBy f t)

/-! ### JSON values and Python coercions -/

/-- JSON values as Python's `json` module produces them (`2020` is an
`int`, `2.5` a `float`). -/
inductive JVal where
  | jnull : JVal
  | jbool (b : Bool) : JVal
  | jint (n : Int) : JVal
  | jfloat (q : ℚ) : JVal
  | jstr (s : String) : JVal
  | jarr (elems : List JVal) : JVal
  | jobj (fields : List (String × JVal)) : JVal

/-- The Python exceptions the embedded code can raise. -/
inductive PyErr where
  | attributeError : PyErr
  | typeError : PyErr
deriving DecidableEq

/-- Python truthiness (`bool(v)`) of a JSON value. -/
def truthy : JVal → Bool
  | .jnull => false
  | .jbool b => b
  | .jint n => n ≠ 0
  | .jfloat q => q ≠ 0
  | .jstr s => s ≠ ""
  | .jarr l => !l.isEmpty
  | .jobj l => !l.isEmpty

/-- Python `a or b` on JSON values: `a` if truthy, else `b`. -/
def pyOrJ (a b : JVal) : JVal :=
  if truthy a then a else b

/-- Embedding of `d.get(k)` on a dict, with Python `None` embedded as `jnull` (the
two are interchangeable for the truthiness and `isinstance` tests that
consume it here). -/
def getJ (d : List (String × JVal)) (k : String) : JVal :=
  match d.find? (fun p => p.1 == k) with
  | some p => p.2
  | none => .jnull

/-- Field lookup on a JSON object (used to state properties of response
bodies). -/
def jget (j : JVal) (k : String) : Option JVal :=
  match j with
  | .jobj d => (d.find? (fun p => p.1 == k)).map (fun p => p.2)
  | _ => none

/-- Python `for x in v`: lists iterate their elements, strings their
characters (as one-character strings), dicts their keys; everything
else raises `TypeError`. -/
def pyIter : JVal → Except PyErr (List JVal)
  | .jarr l => .ok l
  | .jstr s => .ok (s.data.map (fun c => .jstr (String.mk [c])))
  | .jobj l => .ok (l.map (fun p => .jstr p.1))
  | _ => .error .typeError

/-- Digit run to its value. -/
def digitsVal (l : List Char) : Nat :=
  l.foldl (fun a c => a * 10 + (c.toNat - 48)) 0

/-- Strip leading and trailing whitespace. -/
def stripWs (l : List Char) : List Char :=
  ((l.dropWhile (fun c => c.isWhitespace)).reverse.dropWhile (fun c => c.isWhitespace)).reverse

/-- Optional sign prefix: returns the sign and the rest. -/
def splitSign : List Char → Int × List Char
  | '+' :: r => (1, r)
  | '-' :: r => (-1, r)
  | r => (1, r)

/-- Embedding of Python `int(str)`: optional surrounding whitespace,
optional sign, then a non-empty digit run. -/
def parseIntStr (s : String) : Option Int :=
  let t := stripWs s.data
  let sd := splitSign t
  if sd.2 ≠ [] ∧ sd.2.all (fun c => c.isDigit) then some (sd.1 * digitsVal sd.2) else none

/-- Embedding of Python `float(str)`: optional surrounding whitespace,
optional sign, a decimal mantissa (`123`, `123.`, `.5`, `1.25`) and an
optional exponent part (`e7`, `E-3`). -/
def parseFloatStr (s : String) : Option ℚ :=
  let t := stripWs s.data
  let sd := splitSign t
  let mantExp := sd.2.span (fun c => c ≠ 'e' ∧ c ≠ 'E')
  let intFrac := mantExp.1.span (fun c => c ≠ '.')
  let ipart := intFrac.1
  let fpart := match intFrac.2 with
    | [] => some ([] : List Char)
    | _ :: f => some f
  let epart : Option (Int × List Char) := match mantExp.2 with
    | [] => some (1, ['0'])
    | _ :: e => some (splitSign e)
  match fpart, epart with
  | some f, some se =>
    if (ipart ≠ [] ∨ f ≠ []) ∧ ipart.all (fun c => c.isDigit) ∧ f.all (fun c => c.isDigit) ∧
        se.2 ≠ [] ∧ se.2.all (fun c => c.isDigit) then
      some (sd.1 * ((digitsVal ipart : ℚ) + (digitsVal f : ℚ) / ((10 : ℚ) ^ f.length)) *
        ((10 : ℚ) ^ (se.1 * (digitsVal se.2 : Int))))
    else none
  | _, _ => none

/-- Truncation toward zero, as Python `int(float)`. -/
def truncQ (q : ℚ) : Int :=
  Int.tdiv q.num (q.den : Int)

/-- Embedding of Python `float(v)` on a JSON value: numbers and bools
coerce, strings are parsed, everything else raises (= `none`). -/
def pyFloat : JVal → Option ℚ
  | .jint n => some (n : ℚ)
  | .jfloat q => some q
  | .jbool b => some (if b then 1 else 0)
  | .jstr s => parseFloatStr s
  | _ => none

/-- Embedding of Python `int(v)` on a JSON value. -/
def pyInt : JVal → Option Int
  | .jint n => some n
  | .jfloat q => some (truncQ q)
  | .jbool b => some (if b then 1 else 0)
  | .jstr s => parseIntStr s
  | _ => none

/-! ### The value extractor `_extract_latest_value` -/

/-- One loop body of the row scan: a row contributes iff it is a list
of length at least 3 whose first element coerces with `float` and whose
third coerces with `int`. -/
def parseRow : JVal → Option (ℚ × Int)
  | .jarr (v0 :: _ :: y0 :: _) =>
    match pyFloat v0, pyInt y0 with
    | some v, some y => some (v, y)
    | _, _ => none
  | _ => none

/-- Embedding of `res.get("values") or res.get("data") or []` for a result group. -/
def groupValues (d : List (String × JVal)) : JVal :=
  pyOrJ (getJ d "values") (pyOrJ (getJ d "data") (.jarr []))

/-- The rows iterated for a result group: the `values` collection when
it is a list (`isinstance(values, list)`), nothing otherwise. -/
def groupRows (d : List (String × JVal)) : List JVal :=
  match groupValues d with
  | .jarr rows => rows
  | _ => []

/-- The inner `for row in values` loop, threading the running
`(best_val, best_year)` state; a parsed row replaces the state exactly
when its year is strictly greater (or no year is held yet). -/
def scanRows : List JVal → Option ℚ × Option Int → Option ℚ × Option Int
  | [], best => best
  | row :: rest, best =>
    match parseRow row with
    | none => scanRows rest best
    | some (v, y) =>
      match best.2 with
      | none => scanRows rest (some v, some y)
      | some yb => if y > yb then scanRows rest (some v, some y) else scanRows rest best

/-- The outer `for res in results` loop: a group that is not a dict
raises `AttributeError` (`res.get` on a non-dict). -/
def scanGroups : List JVal → Option ℚ × Option Int → Except PyErr (Option ℚ × Option Int)
  | [], best => .ok best
  | g :: rest, best =>
    match g with
    | .jobj d => scanGroups rest (scanRows (groupRows d) best)
    | _ => .error .attributeError

/-- Embedding of `data_json.get("results") or data_json.get("result") or []`,
followed by the single-dict normalisation
`if isinstance(results, dict): results = [results]`. -/
def normalizedResults (data_json : List (String × JVal)) : JVal :=
  match pyOrJ (getJ data_json "results") (pyOrJ (getJ data_json "result") (.jarr [])) with
  | .jobj d => .jarr [.jobj d]
  | x => x

/-- Embedding of `_extract_latest_value`. -/
def _extract_latest_value (data_json : List (String × JVal)) :
    Except PyErr (Option ℚ × Option Int) :=
  match pyIter (normalizedResults data_json) with
  | .error e => .error e
  | .ok groups => scanGroups groups (none, none)

/-! ### Specification-side view of the extractor -/

/-- The rows a group contributes in traversal order (a non-dict group
contributes nothing — it raises instead, which `goodPayload` rules
out). -/
def rowsOfGroup : JVal → List JVal
  | .jobj d => groupRows d
  | _ => []

/-- All rows of a payload in traversal order. -/
def allRowsOf (data_json : List (String × JVal)) : List JVal :=
  match normalizedResults data_json with
  | .jarr gs => gs.flatMap rowsOfGroup
  | _ => []

/-- The successfully parsed `(value, year)` pairs of a payload in
traversal order. -/
def parsedRows (data_json : List (String × JVal)) : List (ℚ × Int) :=
  (allRowsOf data_json).filterMap parseRow

/-- Payloads on which the extractor cannot raise: the normalized
results collection is a list all of whose members are dicts. -/
def goodPayload (data_json : List (String × JVal)) : Bool :=
  match normalizedResults data_json with
  | .jarr gs => gs.all (fun g => match g with | .jobj _ => true | _ => false)
  | _ => false

/-- The folding step of the scan on already-parsed rows. -/
def stepB (b : Option ℚ × Option Int) (r : ℚ × Int) : Option ℚ × Option Int :=
  match b.2 with
  | none => (some r.1, some r.2)
  | some yb => if r.2 > yb then (some r.1, some r.2) else b

/-- The selected row once a first parsed row `(v, y)` is in hand: later
rows displace it only with a strictly greater year. -/
def bestOf (v : ℚ) (y : Int) : List (ℚ × Int) → ℚ × Int
  | [] => (v, y)
  | r :: rest => if r.2 > y then bestOf r.1 r.2 rest else bestOf v y rest

/-- The extractor's answer as a function of the parsed rows alone. -/
def selectLatest : List (ℚ × Int) → Option ℚ × Option Int
  | [] => (none, none)
  | r :: rest => (some (bestOf r.1 r.2 rest).1, some (bestOf r.1 r.2 rest).2)

/-- The population payload of the spec's extraction scenario. -/
def examplePayload : List (String × JVal) :=
  [("results", .jarr [.jobj [("values", .jarr
    [.jarr [.jint 120, .jint 7, .jint 2020],
     .jarr [.jint 130, .jint 7, .jint 2021],
     .jarr [.jstr "bad", .jint 7, .jint 2022]])]])]

/-! ### The response cache

The Python `CACHE` dict is embedded as an ordered association list
with unique keys (a Python dict); `time.time()` becomes an explicit
rational `now` parameter and the mutation becomes state passing. -/

/-- The cache store: key to (insertion timestamp, value). -/
def CacheT (α : Type) : Type := List (String × (ℚ × α))

/-- The constant `CACHE_TTL_SECONDS = 60 * 60 * 24`. -/
def CACHE_TTL_SECONDS : ℚ := 60 * 60 * 24

/-- Key lookup in the store (`CACHE.get(key)`). -/
def lookupKey {β : Type} : List (String × β) → String → Option β
  | [], _ => none
  | (k0, v) :: t, k => if k0 = k then some v else lookupKey t k

/-- Key update in the store (`CACHE[key] = v`): replaces in place,
appends when absent — Python dict insertion-order semantics. -/
def setKey {β : Type} : List (String × β) → String → β → List (String × β)
  | [], k, v => [(k, v)]
  | (k0, v0) :: t, k, v => if k0 = k then (k, v) :: t else (k0, v0) :: setKey t k v

/-- Embedding of `del CACHE[key]` with the `KeyError` swallowed (`try/except` in the
source): deleting an absent key returns the store unchanged rather than
failing. -/
def pyDelKey {β : Type} : List (String × β) → String → List (String × β)
  | [], _ => []
  | (k0, v0) :: t, k => if k0 = k then t else (k0, v0) :: pyDelKey t k

/-- Embedding of `_cache_get`: returns the hit (if any) and the store
after the lazy purge of an expired entry. -/
def _cache_get {β : Type} (cache : CacheT β) (now : ℚ) (key : String) :
    Option β × CacheT β :=
  match lookupKey cache key with
  | none => (none, cache)
  | some (ts, val) =>
    if now - ts > CACHE_TTL_SECONDS then (none, pyDelKey cache key) else (some val, cache)

/-- Embedding of `_cache_set`. -/
def _cache_set {β : Type} (cache : CacheT β) (now : ℚ) (key : String) (val : β) : CacheT β :=
  setKey cache key (now, val)

/-! ### The `/bdl/population` handler -/

/-- The constant `DEFAULT_POP_VAR_ID` with its default (`BDL_POPULATION_VAR_ID`
unset). -/
def DEFAULT_POP_VAR_ID : String := "148190"

/-- The request's query parameters (absent parameter = `none`). -/
structure Req where
  miejscowosc : Option String := none
  gmina : Option String := none
  powiat : Option String := none
  woj : Option String := none
  year : Option String := none

/-- The JSON body of the upstream locality search, typed by the data
model: candidate lists under the two alternate keys `results` /
`items`. -/
structure LocResponse where
  results : Option (List Candidate) := none
  items : Option (List Candidate) := none

/-- Python `x or y` where `x` is an optional candidate list (`None` and `[]`
are both falsy). -/
def pyOrList (o : Option (List Candidate)) (d : List Candidate) : List Candidate :=
  match o with
  | some l => if l = [] then d else l
  | none => d

/-- Embedding of `loc_json.get("results") or loc_json.get("items") or []`. -/
def locItems (L : LocResponse) : List Candidate :=
  pyOrList L.results (pyOrList L.items [])

/-- The upstream API as an oracle: the result of the
`/units/localities` search and of `/data/localities/by-unit/<id>`
(given the unit id and the optional `year` parameter); `.error e`
embeds a raised `requests` exception with message `e`. -/
structure Upstream where
  localities : Except String LocResponse
  dataByUnit : String → Option String → Except String (List (String × JVal))

/-- An HTTP response: status code and JSON body. -/
structure HttpResp where
  status : Nat
  body : JVal

/-- The cache key `f"pop::{miejscowosc}::{gmina}::{powiat}::{woj}::{year}"`
over the normalized parameters. -/
def reqKey (req : Req) : String :=
  "pop::" ++ _norm req.miejscowosc ++ "::" ++ _norm req.gmina ++ "::" ++ _norm req.powiat ++
    "::" ++ _norm req.woj ++ "::" ++ _norm req.year

/-- The 400 body for a missing `miejscowosc`. -/
def badRequestBody : JVal :=
  .jobj [("ok", .jbool false),
         ("error", .jstr "Podaj parametr: miejscowosc (np. ?miejscowosc=Żelewo&gmina=Stare Czarnowo&powiat=gryfiński&woj=zachodniopomorskie)")]

/-- The 502 body for a failed locality search. -/
def locErrorBody (e : String) : JVal :=
  .jobj [("ok", .jbool false), ("error", .jstr ("BDL units/localities error: " ++ e))]

/-- The `found: false` body for an empty search result. -/
def notFoundBody (m : String) : JVal :=
  .jobj [("ok", .jbool true), ("found", .jbool false), ("miejscowosc", .jstr m),
         ("message", .jstr "Nie znaleziono miejscowości w BDL (sprawdź pisownię, dodaj gminę/powiat)."),
         ("source", .jstr "BDL")]

/-- The `found: false` body of the (unreachable) no-match branch. -/
def brakBody (m : String) : JVal :=
  .jobj [("ok", .jbool true), ("found", .jbool false), ("miejscowosc", .jstr m),
         ("message", .jstr "Brak dopasowania."), ("source", .jstr "BDL")]

/-- The `found: false` body for a best record without id. -/
def noIdBody (m : String) : JVal :=
  .jobj [("ok", .jbool true), ("found", .jbool false), ("miejscowosc", .jstr m),
         ("message", .jstr "BDL zwrócił rekord bez id."), ("source", .jstr "BDL")]

/-- The 502 body for a failed data fetch. -/
def dataErrorBody (e uid : String) : JVal :=
  .jobj [("ok", .jbool false), ("error", .jstr ("BDL data/localities/by-unit error: " ++ e)),
         ("unit_id", .jstr uid)]

/-- Optional string to JSON (`None` → `null`). -/
def jOfOptStr : Option String → JVal
  | none => .jnull
  | some s => .jstr s

/-- Optional integer to JSON. -/
def jOfOptInt : Option Int → JVal
  | none => .jnull
  | some n => .jint n

/-- Optional float to JSON. -/
def jOfOptQ : Option ℚ → JVal
  | none => .jnull
  | some q => .jfloat q

/-- Python `hint or None` in the success body. -/
def optHint (s : String) : JVal :=
  if s = "" then .jnull else .jstr s

/-- The success body (`found: true`). -/
def successBody (req : Req) (best : Candidate) (v : Option ℚ) (y : Option Int) : JVal :=
  .jobj [("ok", .jbool true), ("found", .jbool true),
         ("miejscowosc", .jstr (_norm req.miejscowosc)),
         ("gmina_hint", optHint (_norm req.gmina)),
         ("powiat_hint", optHint (_norm req.powiat)),
         ("woj_hint", optHint (_norm req.woj)),
         ("unit_id", .jstr (best.id.getD "")),
         ("picked_record", .jobj
           [("name", jOfOptStr best.name), ("id", jOfOptStr best.id),
            ("level", jOfOptInt best.level), ("parentId", jOfOptStr best.parentId)]),
         ("population", jOfOptQ v), ("year", jOfOptInt y),
         ("var_id_used", .jstr DEFAULT_POP_VAR_ID),
         ("note", .jstr "Jeśli population/year są puste, ustaw inną zmienną BDL_POPULATION_VAR_ID lub doprecyzuj miejscowość (gmina/powiat)."),
         ("source", .jstr "BDL (GUS)")]

/-- Embedding of the `GET /bdl/population` handler `bdl_population`.
Returns the HTTP response, the cache after the request, and the number
of upstream HTTP calls performed; `.error` is an uncaught Python
exception escaping the handler (the extractor's). -/
def bdl_population (req : Req) (cache : CacheT JVal) (now : ℚ) (up : Upstream) :
    Except PyErr (HttpResp × CacheT JVal × Nat) :=
  if _norm req.miejscowosc = "" then
    .ok (⟨400, badRequestBody⟩, cache, 0)
  else
    match _cache_get cache now (reqKey req) with
    | (some cached, c2) => .ok (⟨200, cached⟩, c2, 0)
    | (none, c2) =>
      match up.localities with
      | .error e => .ok (⟨502, locErrorBody e⟩, c2, 1)
      | .ok L =>
        if locItems L = [] then
          .ok (⟨200, notFoundBody (_norm req.miejscowosc)⟩,
            _cache_set c2 now (reqKey req) (notFoundBody (_norm req.miejscowosc)), 1)
        else
          match _pick_best_locality (locItems L) (_norm req.miejscowosc) (_norm req.gmina)
              (_norm req.powiat) (_norm req.woj) with
          | none =>
            .ok (⟨200, brakBody (_norm req.miejscowosc)⟩,
              _cache_set c2 now (reqKey req) (brakBody (_norm req.miejscowosc)), 1)
          | some best =>
            if candTruthy best = false then
              .ok (⟨200, brakBody (_norm req.miejscowosc)⟩,
                _cache_set c2 now (reqKey req) (brakBody (_norm req.miejscowosc)), 1)
            else if best.id.getD "" = "" then
              .ok (⟨200, noIdBody (_norm req.miejscowosc)⟩,
                _cache_set c2 now (reqKey req) (noIdBody (_norm req.miejscowosc)), 1)
            else
              match up.dataByUnit (best.id.getD "")
                  (if _norm req.year = "" then none else some (_norm req.year)) with
              | .error e => .ok (⟨502, dataErrorBody e (best.id.getD "")⟩, c2, 2)
              | .ok dj =>
                match _extract_latest_value dj with
                | .error pe => .error pe
                | .ok (v, y) =>
                  .ok (⟨200, successBody req best v y⟩,
                    _cache_set c2 now (reqKey req) (successBody req best v y), 2)

/-! ### The legacy `/bdl-basic` endpoint -/

/-- Modelled from the spec: the upstream interactions of the first
(legacy) program variant, whose source is not under `src/` (only the
cached variant `app.py` is).  `findUnit` is the unit lookup by
municipality name, `popVar` the resolved population variable (absent
when it cannot be resolved), `population` the fetched figure. -/
structure BasicUpstream where
  findUnit : String → Option JVal
  popVar : Option String
  population : JVal

/-- Modelled from the spec: the legacy `GET /bdl-basic?gmina=<name>`
handler — 400 on missing `gmina`, 404 when the unit is not found, 500
when the population variable cannot be resolved, else 200 with
`input` / `unit` / `population` / `note` fields. -/
def bdl_basic (gmina : Option String) (up : BasicUpstream) : HttpResp :=
  if _norm gmina = "" then
    ⟨400, .jobj [("ok", .jbool false), ("error", .jstr "Podaj parametr: gmina")]⟩
  else
    match up.findUnit (_norm gmina) with
    | none => ⟨404, .jobj [("ok", .jbool false), ("error", .jstr "Nie znaleziono jednostki w BDL")]⟩
    | some unit =>
      match up.popVar with
      | none => ⟨500, .jobj [("ok", .jbool false), ("error", .jstr "Nie udało się ustalić zmiennej populacji")]⟩
      | some _ =>
        ⟨200, .jobj [("input", .jstr (_norm gmina)), ("unit", unit),
          ("population", up.population),
          ("note", .jstr "Dane z BDL (GUS).")]⟩

/-! ## Theorems -/

/-- C1: the resolver's per-candidate score is the sum of the name
component (50 for an exact normalized match, else 20 for a non-empty
substring match), 15 / 10 / 5 for the municipality / county / region
hint occurring (non-empty) in the synthesized blob, and 1 for a
non-empty id. -/
theorem score_is_weighted_sum (m g p w : String) (it : Candidate) :
    score (_safe_lower (some m)) (_safe_lower (some g)) (_safe_lower (some p))
        (_safe_lower (some w)) it =
      (if _safe_lower it.name = _safe_lower (some m) then 50
       else if _safe_lower (some m) ≠ "" ∧ strIn (_safe_lower (some m)) (_safe_lower it.name)
       then 20 else 0)
      + (if _safe_lower (some g) ≠ "" ∧ strIn (_safe_lower (some g)) (blobOf it) then 15 else 0)
      + (if _safe_lower (some p) ≠ "" ∧ strIn (_safe_lower (some p)) (blobOf it) then 10 else 0)
      + (if _safe_lower (some w) ≠ "" ∧ strIn (_safe_lower (some w)) (blobOf it) then 5 else 0)
      + (if optStrTruthy it.id then 1 else 0) := by
  simp only [score]
  split_ifs <;> omega

/-- The head of the descending-stable-sorted list realises the maximum
of `f` and is the first element of the input doing so. -/
theorem insertionSort_head_firstMax {α : Type} (f : α → Nat) :
    ∀ l : List α, l ≠ [] →
      ∃ h t, List.insertionSort (fun a b => f b ≤ f a) l = h :: t ∧
        f h = listMaxBy f l ∧
        l.find? (fun c => f c == listMaxBy f l) = some h := by
  intro l
  induction l with
  | nil => intro hc; exact absurd rfl hc
  | cons a l ih =>
    intro _
    match l, ih with
    | [], _ =>
      refine ⟨a, [], ?_, ?_, ?_⟩
      · simp [List.insertionSort, List.orderedInsert]
      · simp [listMaxBy]
      · simp [listMaxBy, List.find?]
    | b :: l', ih =>
      obtain ⟨h, t, hsort, hmax, hfind⟩ := ih (by simp)
      by_cases hle : f h ≤ f a
      · refine ⟨a, h :: t, ?_, ?_, ?_⟩
        · rw [show List.insertionSort (fun a b => f b ≤ f a) (a :: b :: l') =
              List.orderedInsert (fun a b => f b ≤ f a) a
                (List.insertionSort (fun a b => f b ≤ f a) (b :: l')) from rfl, hsort]
          simp only [List.orderedInsert]
          rw [if_pos hle]
        · simp only [listMaxBy] at hmax ⊢
          omega
        · have hm : listMaxBy f (a :: b :: l') = f a := by
            simp only [listMaxBy] at hmax ⊢
            omega
          rw [hm]
          simp [List.find?]
      · have hlt : f a < f h := Nat.lt_of_not_le hle
        refine ⟨h, List.orderedInsert (fun a b => f b ≤ f a) a t, ?_, ?_, ?_⟩
        · rw [show List.insertionSort (fun a b => f b ≤ f a) (a :: b :: l') =
              List.orderedInsert (fun a b => f b ≤ f a) a
                (List.insertionSort (fun a b => f b ≤ f a) (b :: l')) from rfl, hsort]
          simp only [List.orderedInsert]
          rw [if_neg hle]
        · simp only [listMaxBy] at hmax ⊢
          omega
        · have hm : listMaxBy f (a :: b :: l') = listMaxBy f (b :: l') := by
            simp only [listMaxBy] at hmax ⊢
            omega
          rw [hm]
          have hne : (f a == listMaxBy f (b :: l')) = false := by
            rw [← hmax]
            simp
            omega
          simp only [List.find?, hne]
          exact hfind

/-- C2: on a non-empty candidate list the resolver returns the first
candidate, in original order, whose score is maximal (the stable
descending sort's head); determinism is immediate since the embedded
resolver is a pure function of its arguments. -/
theorem pick_best_is_first_max (items : List Candidate) (m g p w : String)
    (hne : items ≠ []) :
    _pick_best_locality items m g p w =
      items.find? (fun c =>
        score (_safe_lower (some m)) (_safe_lower (some g)) (_safe_lower (some p))
            (_safe_lower (some w)) c ==
          listMaxBy (score (_safe_lower (some m)) (_safe_lower (some g)) (_safe_lower (some p))
            (_safe_lower (some w))) items) := by
  obtain ⟨h, t, hsort, _, hfind⟩ :=
    insertionSort_head_firstMax
      (score (_safe_lower (some m)) (_safe_lower (some g)) (_safe_lower (some p))
        (_safe_lower (some w))) items hne
  simp only [_pick_best_locality, if_neg hne, hsort, List.head?, hfind]

/-- C2 witness: with two equally-scored candidates the first one in
upstream order is returned. -/
theorem pick_best_is_first_max_witness :
    _pick_best_locality [{ name := some "Wola" }, { name := some "Wola", id := none }] "Wola" "" "" "" =
      List.find? (fun c =>
        score (_safe_lower (some "Wola")) (_safe_lower (some "")) (_safe_lower (some ""))
            (_safe_lower (some "")) c ==
          listMaxBy (score (_safe_lower (some "Wola")) (_safe_lower (some ""))
            (_safe_lower (some "")) (_safe_lower (some "")))
            [{ name := some "Wola" }, { name := some "Wola", id := none }])
        [{ name := some "Wola" }, { name := some "Wola", id := none }] :=
  pick_best_is_first_max [{ name := some "Wola" }, { name := some "Wola", id := none }]
    "Wola" "" "" "" (by simp)

/-- The row scan is the fold of `stepB` over the parsed rows. -/
theorem scanRows_eq_foldl (l : List JVal) :
    ∀ b, scanRows l b = (l.filterMap parseRow).foldl stepB b := by
  induction l with
  | nil => intro b; rfl
  | cons row rest ih =>
    intro b
    simp only [scanRows]
    cases hp : parseRow row with
    | none => simp [List.filterMap_cons, hp, ih]
    | some r =>
      obtain ⟨v, y⟩ := r
      obtain ⟨b1, b2⟩ := b
      simp only [List.filterMap_cons, hp, List.foldl_cons]
      cases b2 with
      | none => simpa [stepB] using ih _
      | some yb =>
        by_cases hgt : y > yb <;> simp [stepB, hgt, ih]

/-- Scanning a concatenation is scanning the pieces in order. -/
theorem scanRows_append (l1 l2 : List JVal) (b : Option ℚ × Option Int) :
    scanRows (l1 ++ l2) b = scanRows l2 (scanRows l1 b) := by
  rw [scanRows_eq_foldl, scanRows_eq_foldl, scanRows_eq_foldl,
    List.filterMap_append, List.foldl_append]

/-- When every group is a dict the group scan cannot raise and scans
all rows in traversal order. -/
theorem scanGroups_all_obj (gs : List JVal)
    (hall : ∀ g ∈ gs, (match g with | JVal.jobj _ => true | _ => false) = true) :
    ∀ b, scanGroups gs b = .ok (scanRows (gs.flatMap rowsOfGroup) b) := by
  induction gs with
  | nil => intro b; simp [scanGroups, scanRows]
  | cons g gs ih =>
    intro b
    match g, hall g (List.mem_cons_self g gs) with
    | JVal.jobj d, _ =>
      simp only [scanGroups, List.flatMap_cons, scanRows_append, rowsOfGroup]
      exact ih (fun g hg => hall g (List.mem_cons_of_mem _ hg)) _

/-- Folding `stepB` from a held row computes `bestOf`. -/
theorem foldl_stepB_some (l : List (ℚ × Int)) :
    ∀ (v : ℚ) (y : Int),
      l.foldl stepB (some v, some y) = (some (bestOf v y l).1, some (bestOf v y l).2) := by
  induction l with
  | nil => intro v y; rfl
  | cons r tl ih =>
    intro v y
    obtain ⟨v1, y1⟩ := r
    by_cases hgt : y1 > y <;> simp [stepB, bestOf, hgt, ih]

/-- Folding `stepB` from the empty state computes `selectLatest`. -/
theorem foldl_stepB_none (l : List (ℚ × Int)) :
    l.foldl stepB (none, none) = selectLatest l := by
  cases l with
  | nil => rfl
  | cons r tl =>
    obtain ⟨v, y⟩ := r
    simp [stepB, selectLatest, foldl_stepB_some]

/-- Evaluating `find?` on a cons whose head satisfies the predicate. -/
theorem find?_cons_pos {α : Type} (p : α → Bool) (a : α) (l : List α) (h : p a = true) :
    List.find? p (a :: l) = some a := by
  simp [List.find?, h]

/-- Evaluating `find?` on a cons whose head fails the predicate. -/
theorem find?_cons_neg {α : Type} (p : α → Bool) (a : α) (l : List α) (h : p a = false) :
    List.find? p (a :: l) = List.find? p l := by
  simp [List.find?, h]

/-- The pair `bestOf v y rest` is a member of `(v, y) :: rest`, its year bounds
every member's year, and it is the first member attaining that year. -/
theorem bestOf_spec (rest : List (ℚ × Int)) :
    ∀ (v : ℚ) (y : Int),
      bestOf v y rest ∈ (v, y) :: rest ∧
      (∀ r ∈ (v, y) :: rest, r.2 ≤ (bestOf v y rest).2) ∧
      ((v, y) :: rest).find? (fun r => r.2 == (bestOf v y rest).2) =
        some (bestOf v y rest) := by
  induction rest with
  | nil =>
    intro v y
    refine ⟨List.mem_cons_self _ _, ?_, ?_⟩
    · intro r hr
      rw [List.mem_singleton] at hr
      subst hr
      exact le_refl _
    · simp [List.find?, bestOf]
  | cons hd tl ih =>
    intro v y
    obtain ⟨v1, y1⟩ := hd
    by_cases hgt : y1 > y
    · have hb : bestOf v y ((v1, y1) :: tl) = bestOf v1 y1 tl := by
        simp [bestOf, hgt]
      obtain ⟨hmem, hbound, hfind⟩ := ih v1 y1
      rw [hb]
      have hy2 : y1 ≤ (bestOf v1 y1 tl).2 := hbound _ (List.mem_cons_self _ _)
      refine ⟨List.mem_cons_of_mem _ hmem, ?_, ?_⟩
      · intro r hr
        rcases List.mem_cons.mp hr with h1 | h2
        · subst h1; omega
        · exact hbound r h2
      · have hne : ((v, y).2 == (bestOf v1 y1 tl).2) = false := by
          simp only [beq_eq_false_iff_ne, ne_eq]
          omega
        exact (find?_cons_neg (fun r => r.2 == (bestOf v1 y1 tl).2) (v, y)
          ((v1, y1) :: tl) hne).trans hfind
    · have hb : bestOf v y ((v1, y1) :: tl) = bestOf v y tl := by
        simp [bestOf, hgt]
      obtain ⟨hmem, hbound, hfind⟩ := ih v y
      rw [hb]
      have hy2 : y ≤ (bestOf v y tl).2 := hbound _ (List.mem_cons_self _ _)
      refine ⟨?_, ?_, ?_⟩
      · rcases List.mem_cons.mp hmem with h1 | h2
        · rw [h1]; exact List.mem_cons_self _ _
        · exact List.mem_cons_of_mem _ (List.mem_cons_of_mem _ h2)
      · intro r hr
        rcases List.mem_cons.mp hr with h1 | hr1
        · subst h1; exact hy2
        rcases List.mem_cons.mp hr1 with h2 | h3
        · subst h2; simp only; omega
        · exact hbound r (List.mem_cons_of_mem _ h3)
      · by_cases hy : y = (bestOf v y tl).2
        · have hp : ((v, y).2 == (bestOf v y tl).2) = true := by
            simpa using hy
          have e4 := find?_cons_pos (fun r => r.2 == (bestOf v y tl).2) (v, y) tl hp
          have heq : bestOf v y tl = (v, y) :=
            Option.some_inj.mp (e4.symm.trans hfind).symm
          have e5 := find?_cons_pos (fun r => r.2 == (bestOf v y tl).2) (v, y)
            ((v1, y1) :: tl) hp
          rw [e5, heq]
        · have hlt : y < (bestOf v y tl).2 := lt_of_le_of_ne hy2 hy
          have hp : ((v, y).2 == (bestOf v y tl).2) = false := by
            simp only [beq_eq_false_iff_ne, ne_eq]
            omega
          have hp1 : ((v1, y1).2 == (bestOf v y tl).2) = false := by
            simp only [beq_eq_false_iff_ne, ne_eq]
            simp only at hgt ⊢
            omega
          have e1 := find?_cons_neg (fun r => r.2 == (bestOf v y tl).2) (v, y)
            ((v1, y1) :: tl) hp
          have e2 := find?_cons_neg (fun r => r.2 == (bestOf v y tl).2) (v1, y1) tl hp1
          have e3 := find?_cons_neg (fun r => r.2 == (bestOf v y tl).2) (v, y) tl hp
          exact e1.trans (e2.trans (e3.symm.trans hfind))

/-- On a good payload the extractor returns `selectLatest` of the
parsed rows. -/
theorem extract_eq_selectLatest (p : List (String × JVal)) (hp : goodPayload p = true) :
    _extract_latest_value p = .ok (selectLatest (parsedRows p)) := by
  unfold goodPayload at hp
  unfold _extract_latest_value parsedRows allRowsOf
  cases hnr : normalizedResults p with
  | jarr gs =>
    rw [hnr] at hp
    simp only [pyIter]
    rw [scanGroups_all_obj gs (by simpa using List.all_eq_true.mp hp)]
    rw [scanRows_eq_foldl, foldl_stepB_none]
  | jnull => rw [hnr] at hp; simp at hp
  | jbool b => rw [hnr] at hp; simp at hp
  | jint n => rw [hnr] at hp; simp at hp
  | jfloat q => rw [hnr] at hp; simp at hp
  | jstr s => rw [hnr] at hp; simp at hp
  | jobj d => rw [hnr] at hp; simp at hp

/-- C3 (amended): on every payload on which the extractor returns
normally — equivalently, whose normalized results collection is a list
of dicts — it returns the value and year of the row with the maximum
year among all rows, across all groups, that parse as
(number, _, integer), the first such row in traversal order winning
ties; `(none, none)` when no row parses; and on the spec's scenario
payload it returns `(130, 2021)`. -/
theorem extract_latest_max_year (p : List (String × JVal)) (hp : goodPayload p = true) :
    (parsedRows p = [] → _extract_latest_value p = .ok (none, none)) ∧
    (∀ v0 y0 rest0, parsedRows p = (v0, y0) :: rest0 →
      ∃ bv bY, _extract_latest_value p = .ok (some bv, some bY) ∧
        (bv, bY) ∈ parsedRows p ∧
        (∀ r ∈ parsedRows p, r.2 ≤ bY) ∧
        (parsedRows p).find? (fun r => r.2 == bY) = some (bv, bY)) ∧
    _extract_latest_value examplePayload = .ok (some 130, some 2021) := by
  have hmain := extract_eq_selectLatest p hp
  refine ⟨?_, ?_, rfl⟩
  · intro h0
    rw [hmain, h0]
    rfl
  · intro v0 y0 rest0 hcons
    obtain ⟨hmem, hbound, hfind⟩ := bestOf_spec rest0 v0 y0
    refine ⟨(bestOf v0 y0 rest0).1, (bestOf v0 y0 rest0).2, ?_, ?_, ?_, ?_⟩
    · rw [hmain, hcons]
      rfl
    · rw [hcons, Prod.mk.eta]
      exact hmem
    · rw [hcons]
      exact hbound
    · rw [hcons, Prod.mk.eta]
      exact hfind

/-- C3 witness: the theorem applied to the spec's scenario payload,
whose parsed rows are `[(120, 2020), (130, 2021)]`. -/
theorem extract_latest_max_year_witness :
    goodPayload examplePayload = true ∧
    ∃ bv bY, _extract_latest_value examplePayload = .ok (some bv, some bY) ∧
      (bv, bY) ∈ parsedRows examplePayload ∧
      (∀ r ∈ parsedRows examplePayload, r.2 ≤ bY) ∧
      (parsedRows examplePayload).find? (fun r => r.2 == bY) = some (bv, bY) :=
  ⟨rfl, (extract_latest_max_year examplePayload rfl).2.1 120 2020 [(130, 2021)] rfl⟩

/-- C3 counterexample: the claim promises a returned pair for *every*
payload, but on `{"results": 7}` the extractor raises `TypeError`
(iterating an `int`) instead of returning. -/
theorem extract_raises_on_scalar_results :
    _extract_latest_value [("results", JVal.jint 7)] = .error .typeError :=
  rfl

/-- C4 (amended): the extractor returns normally on every payload whose
normalized results collection is a list of dicts (in particular under
unexpected key names, non-list value collections, non-list rows, short
rows, and non-numeric values or years); a truthy non-iterable results
value or a non-dict result group raises instead. -/
theorem extract_total_on_dict_groups (p : List (String × JVal)) (hp : goodPayload p = true) :
    ∃ r, _extract_latest_value p = .ok r :=
  ⟨selectLatest (parsedRows p), extract_eq_selectLatest p hp⟩

/-- C4 witness: the theorem applied to a payload exercising a malformed
value collection, a short row, a non-list row and a bad year. -/
theorem extract_total_on_dict_groups_witness :
    goodPayload [("results", JVal.jarr
      [JVal.jobj [("values", JVal.jstr "zle")],
       JVal.jobj [("values", JVal.jarr
         [JVal.jarr [JVal.jint 1], JVal.jint 3,
          JVal.jarr [JVal.jint 1, JVal.jint 2, JVal.jstr "rok"]])]])] = true ∧
    ∃ r, _extract_latest_value [("results", JVal.jarr
      [JVal.jobj [("values", JVal.jstr "zle")],
       JVal.jobj [("values", JVal.jarr
         [JVal.jarr [JVal.jint 1], JVal.jint 3,
          JVal.jarr [JVal.jint 1, JVal.jint 2, JVal.jstr "rok"]])]])] = .ok r :=
  ⟨rfl, extract_total_on_dict_groups _ rfl⟩

/-- C4 counterexample: on `{"results": [5]}` — a result group of the
wrong type, explicitly within the claim's scope — the extractor raises
`AttributeError` (`res.get` on an `int`) rather than returning
`(none, none)`. -/
theorem extract_raises_on_nondict_group :
    _extract_latest_value [("results", JVal.jarr [JVal.jint 5])] = .error .attributeError :=
  rfl

/-! ### Cache lemmas -/

/-- The update `setKey` stores the value under the key. -/
theorem lookup_setKey_self {β : Type} (c : List (String × β)) (k : String) (v : β) :
    lookupKey (setKey c k v) k = some v := by
  induction c with
  | nil => simp [setKey, lookupKey]
  | cons hd t ih =>
    obtain ⟨k0, v0⟩ := hd
    by_cases h : k0 = k <;> simp [setKey, lookupKey, h, ih]

/-- Deleting an absent key leaves the store unchanged (the swallowed
`KeyError`). -/
theorem pyDel_eq_of_lookup_none {β : Type} (c : List (String × β)) (k : String)
    (h : lookupKey c k = none) : pyDelKey c k = c := by
  induction c with
  | nil => rfl
  | cons hd t ih =>
    obtain ⟨k0, v0⟩ := hd
    by_cases hk : k0 = k
    · simp [lookupKey, hk] at h
    · simp only [lookupKey, if_neg hk] at h
      simp [pyDelKey, hk, ih h]

/-- A key absent from the key list is not found. -/
theorem lookup_eq_none_of_not_mem_keys {β : Type} (c : List (String × β)) (k : String)
    (h : k ∉ c.map Prod.fst) : lookupKey c k = none := by
  induction c with
  | nil => rfl
  | cons hd t ih =>
    obtain ⟨k0, v0⟩ := hd
    simp only [List.map_cons, List.mem_cons, not_or] at h
    have hne : k0 ≠ k := fun he => h.1 he.symm
    simp only [lookupKey, if_neg hne]
    exact ih h.2

/-- With duplicate-free keys (a dict), deletion really removes the
key. -/
theorem lookup_pyDel_self {β : Type} (c : List (String × β)) (k : String)
    (h : (c.map Prod.fst).Nodup) : lookupKey (pyDelKey c k) k = none := by
  induction c with
  | nil => rfl
  | cons hd t ih =>
    obtain ⟨k0, v0⟩ := hd
    simp only [List.map_cons, List.nodup_cons] at h
    by_cases hk : k0 = k
    · subst hk
      simp only [pyDelKey, if_pos rfl]
      exact lookup_eq_none_of_not_mem_keys t k0 h.1
    · simp only [pyDelKey, if_neg hk, lookupKey, if_neg hk]
      exact ih h.2

/-- Keys of `setKey` come from the old keys or are the new key. -/
theorem mem_keys_setKey {β : Type} (t : List (String × β)) (k x : String) (v : β)
    (h : x ∈ (setKey t k v).map Prod.fst) : x ∈ t.map Prod.fst ∨ x = k := by
  induction t with
  | nil => simpa [setKey] using h
  | cons hd t ih =>
    obtain ⟨k0, v0⟩ := hd
    by_cases hk : k0 = k
    · simp only [setKey, if_pos hk, List.map_cons, List.mem_cons] at h
      rcases h with h | h
      · right; exact h
      · left; simp [h]
    · simp only [setKey, if_neg hk, List.map_cons, List.mem_cons] at h ⊢
      rcases h with h | h
      · left; left; exact h
      · rcases ih h with h1 | h1
        · left; right; exact h1
        · right; exact h1

/-- The update `setKey` preserves duplicate-freeness of the keys. -/
theorem keys_nodup_setKey {β : Type} (c : List (String × β)) (k : String) (v : β)
    (h : (c.map Prod.fst).Nodup) : ((setKey c k v).map Prod.fst).Nodup := by
  induction c with
  | nil => simp [setKey]
  | cons hd t ih =>
    obtain ⟨k0, v0⟩ := hd
    simp only [List.map_cons, List.nodup_cons] at h
    by_cases hk : k0 = k
    · subst hk
      have hs : setKey ((k0, v0) :: t) k0 v = (k0, v) :: t := by
        simp [setKey]
      rw [hs, List.map_cons, List.nodup_cons]
      exact h
    · simp only [setKey, if_neg hk, List.map_cons, List.nodup_cons]
      refine ⟨?_, ih h.2⟩
      intro hmem
      rcases mem_keys_setKey t k k0 v hmem with h1 | h1
      · exact h.1 h1
      · exact hk h1

/-- C5 (amended): `set(k, v)` then `get(k)` returns `v` while at most
the TTL has elapsed (including exactly at the TTL, which the claim's
"once the TTL has elapsed" wording misses); `set` unconditionally
overwrites with the current timestamp; strictly after the TTL, `get`
returns absent and removes the entry; deleting an already-absent key
does not fail and leaves the store unchanged. -/
theorem cache_contract {β : Type} (cache : CacheT β) (now nowr : ℚ) (k : String) (v : β) :
    (nowr - now ≤ CACHE_TTL_SECONDS →
      _cache_get (_cache_set cache now k v) nowr k = (some v, _cache_set cache now k v)) ∧
    lookupKey (_cache_set cache now k v) k = some (now, v) ∧
    (nowr - now > CACHE_TTL_SECONDS →
      (_cache_get (_cache_set cache now k v) nowr k).1 = none ∧
      ((cache.map Prod.fst).Nodup →
        lookupKey (_cache_get (_cache_set cache now k v) nowr k).2 k = none)) ∧
    (lookupKey cache k = none → pyDelKey cache k = cache) := by
  have hlk : lookupKey (_cache_set cache now k v) k = some (now, v) :=
    lookup_setKey_self cache k (now, v)
  refine ⟨?_, hlk, ?_, pyDel_eq_of_lookup_none cache k⟩
  · intro hle
    simp only [_cache_get, hlk]
    rw [if_neg (by linarith)]
  · intro hgt
    simp only [_cache_get, hlk]
    rw [if_pos (by linarith)]
    refine ⟨rfl, ?_⟩
    intro hnd
    exact lookup_pyDel_self _ k (keys_nodup_setKey cache k (now, v) hnd)

/-- C5 witness: a concrete round-trip, overwrite stamp, strict-TTL
expiry with removal, and no-op deletion of an absent key. -/
theorem cache_contract_witness :
    _cache_get (_cache_set ([] : CacheT Nat) 0 "k" 5) 3600 "k" =
      (some 5, _cache_set ([] : CacheT Nat) 0 "k" 5) ∧
    lookupKey (_cache_set ([] : CacheT Nat) 0 "k" 5) "k" = some (0, 5) ∧
    (_cache_get (_cache_set ([] : CacheT Nat) 0 "k" 5) 100000 "k").1 = none ∧
    lookupKey (_cache_get (_cache_set ([] : CacheT Nat) 0 "k" 5) 100000 "k").2 "k" = none ∧
    pyDelKey ([("a", (0, 5))] : CacheT Nat) "k" = [("a", (0, 5))] := by
  have h1 := cache_contract ([] : CacheT Nat) 0 3600 "k" 5
  have h2 := cache_contract ([] : CacheT Nat) 0 100000 "k" 5
  have h3 := cache_contract ([("a", (0, 5))] : CacheT Nat) 0 0 "k" 5
  exact ⟨h1.1 (by norm_num [CACHE_TTL_SECONDS]), h1.2.1,
    (h2.2.2.1 (by norm_num [CACHE_TTL_SECONDS])).1,
    (h2.2.2.1 (by norm_num [CACHE_TTL_SECONDS])).2 (by simp),
    h3.2.2.2 rfl⟩

/-- C5 counterexample: when exactly the 86400-second TTL has elapsed,
`get` still returns the value — not absent as the claim's "once the TTL
has elapsed" clause states (expiry requires strictly more). -/
theorem cache_returns_value_at_exact_ttl :
    (86400 : ℚ) - 0 = CACHE_TTL_SECONDS ∧
    (_cache_get (_cache_set ([] : CacheT Nat) 0 "k" 7) 86400 "k").1 = some 7 := by
  refine ⟨by norm_num [CACHE_TTL_SECONDS], ?_⟩
  have hlk : lookupKey (_cache_set ([] : CacheT Nat) 0 "k" 7) "k" = some (0, 7) :=
    lookup_setKey_self _ _ _
  simp only [_cache_get, hlk]
  rw [if_neg (by norm_num [CACHE_TTL_SECONDS])]

/-! ### Handler theorems -/

/-- C6: with a fresh cache entry under the request's normalized key
(age at most the TTL), the handler returns the cached response
unchanged, leaves the cache unchanged, and performs zero upstream HTTP
calls. -/
theorem cache_hit_zero_upstream (req : Req) (cache : CacheT JVal) (now ts : ℚ)
    (up : Upstream) (v : JVal)
    (hm : _norm req.miejscowosc ≠ "")
    (hlk : lookupKey cache (reqKey req) = some (ts, v))
    (hage : now - ts ≤ CACHE_TTL_SECONDS) :
    bdl_population req cache now up = .ok (⟨200, v⟩, cache, 0) := by
  have hget : _cache_get cache now (reqKey req) = (some v, cache) := by
    simp only [_cache_get, hlk]
    rw [if_neg (by linarith)]
  simp only [bdl_population, if_neg hm, hget]

/-- C6 witness: a second identical query 3600 s after the stored
answer is served from the cache with the upstream oracle failing,
hence zero upstream calls. -/
theorem cache_hit_zero_upstream_witness :
    bdl_population ⟨some "X", none, none, none, none⟩
      [("pop::X::::::::", ((0 : ℚ), JVal.jbool true))] 3600
      ⟨.error "down", fun _ _ => .error "down"⟩ =
      .ok (⟨200, JVal.jbool true⟩, [("pop::X::::::::", ((0 : ℚ), JVal.jbool true))], 0) :=
  cache_hit_zero_upstream ⟨some "X", none, none, none, none⟩
    [("pop::X::::::::", ((0 : ℚ), JVal.jbool true))] 3600 0
    ⟨.error "down", fun _ _ => .error "down"⟩ (JVal.jbool true)
    (by decide) rfl (by norm_num [CACHE_TTL_SECONDS])

/-- C7: on a cache miss, when the locality search succeeds but yields
an empty candidate list, or the resolver returns none, or the chosen
record's id is missing or empty, the handler responds 200 (never 404)
with `ok: true`, `found: false` and a human-readable message, and
stores that negative body. -/
theorem not_found_is_200_found_false (req : Req) (cache : CacheT JVal) (now : ℚ)
    (up : Upstream) (L : LocResponse)
    (hm : _norm req.miejscowosc ≠ "")
    (hmiss : (_cache_get cache now (reqKey req)).1 = none)
    (hup : up.localities = .ok L)
    (hcase : locItems L = [] ∨
      _pick_best_locality (locItems L) (_norm req.miejscowosc) (_norm req.gmina)
        (_norm req.powiat) (_norm req.woj) = none ∨
      (∃ best, _pick_best_locality (locItems L) (_norm req.miejscowosc) (_norm req.gmina)
        (_norm req.powiat) (_norm req.woj) = some best ∧ best.id.getD "" = "")) :
    ∃ body, bdl_population req cache now up =
        .ok (⟨200, body⟩,
          _cache_set (_cache_get cache now (reqKey req)).2 now (reqKey req) body, 1) ∧
      jget body "ok" = some (.jbool true) ∧
      jget body "found" = some (.jbool false) ∧
      (∃ msg, jget body "message" = some (.jstr msg)) := by
  obtain ⟨c2, hget⟩ : ∃ c2, _cache_get cache now (reqKey req) = (none, c2) :=
    ⟨(_cache_get cache now (reqKey req)).2, by
      conv_lhs => rw [← Prod.mk.eta (p := _cache_get cache now (reqKey req))]
      rw [hmiss]⟩
  have hc2 : (_cache_get cache now (reqKey req)).2 = c2 := by rw [hget]
  rcases hcase with hempty | hnone | ⟨best, hbest, hid⟩
  · refine ⟨notFoundBody (_norm req.miejscowosc), ?_, rfl, rfl, ⟨_, rfl⟩⟩
    rw [hc2]
    simp only [bdl_population, if_neg hm, hget, hup, if_pos hempty]
  · by_cases hempty : locItems L = []
    · refine ⟨notFoundBody (_norm req.miejscowosc), ?_, rfl, rfl, ⟨_, rfl⟩⟩
      rw [hc2]
      simp only [bdl_population, if_neg hm, hget, hup, if_pos hempty]
    · refine ⟨brakBody (_norm req.miejscowosc), ?_, rfl, rfl, ⟨_, rfl⟩⟩
      rw [hc2]
      simp only [bdl_population, if_neg hm, hget, hup, if_neg hempty, hnone]
  · by_cases hempty : locItems L = []
    · refine ⟨notFoundBody (_norm req.miejscowosc), ?_, rfl, rfl, ⟨_, rfl⟩⟩
      rw [hc2]
      simp only [bdl_population, if_neg hm, hget, hup, if_pos hempty]
    · by_cases hct : candTruthy best = false
      · refine ⟨brakBody (_norm req.miejscowosc), ?_, rfl, rfl, ⟨_, rfl⟩⟩
        rw [hc2]
        simp only [bdl_population, if_neg hm, hget, hup, if_neg hempty, hbest, if_pos hct]
      · refine ⟨noIdBody (_norm req.miejscowosc), ?_, rfl, rfl, ⟨_, rfl⟩⟩
        rw [hc2]
        simp only [bdl_population, if_neg hm, hget, hup, if_neg hempty, hbest, if_neg hct,
          if_pos hid]

/-- C7 witness: an empty upstream search result yields a stored 200
`found: false` response. -/
theorem not_found_is_200_found_false_witness :
    ∃ body, bdl_population ⟨some "X", none, none, none, none⟩ [] 0
        ⟨.ok ⟨some [], none⟩, fun _ _ => .error "down"⟩ =
        .ok (⟨200, body⟩,
          _cache_set (_cache_get ([] : CacheT JVal) 0
            (reqKey ⟨some "X", none, none, none, none⟩)).2 0
            (reqKey ⟨some "X", none, none, none, none⟩) body, 1) ∧
      jget body "ok" = some (.jbool true) ∧
      jget body "found" = some (.jbool false) ∧
      (∃ msg, jget body "message" = some (.jstr msg)) :=
  not_found_is_200_found_false ⟨some "X", none, none, none, none⟩ [] 0
    ⟨.ok ⟨some [], none⟩, fun _ _ => .error "down"⟩ ⟨some [], none⟩
    (by decide) rfl rfl (Or.inl rfl)

/-- C8: the legacy `/bdl-basic` contract (404/500 variant), settled
against the spec-modelled handler: 400 when `gmina` is missing/blank,
404 when the unit is not found, 500 when the population variable cannot
be resolved, else 200 with `input`, `unit`, `population` and `note`
fields. -/
theorem bdl_basic_contract (up : BasicUpstream) (gmina : Option String) :
    (_norm gmina = "" → (bdl_basic gmina up).status = 400) ∧
    (_norm gmina ≠ "" → up.findUnit (_norm gmina) = none →
      (bdl_basic gmina up).status = 404) ∧
    (∀ u, _norm gmina ≠ "" → up.findUnit (_norm gmina) = some u → up.popVar = none →
      (bdl_basic gmina up).status = 500) ∧
    (∀ u pv, _norm gmina ≠ "" → up.findUnit (_norm gmina) = some u → up.popVar = some pv →
      (bdl_basic gmina up).status = 200 ∧
      jget (bdl_basic gmina up).body "input" = some (.jstr (_norm gmina)) ∧
      jget (bdl_basic gmina up).body "unit" = some u ∧
      jget (bdl_basic gmina up).body "population" = some up.population ∧
      ∃ note, jget (bdl_basic gmina up).body "note" = some note) := by
  refine ⟨?_, ?_, ?_, ?_⟩
  · intro hg
    simp only [bdl_basic, if_pos hg]
  · intro hg hu
    simp only [bdl_basic, if_neg hg, hu]
  · intro u hg hu hv
    simp only [bdl_basic, if_neg hg, hu, hv]
  · intro u pv hg hu hv
    have hb : bdl_basic gmina up = ⟨200, .jobj [("input", .jstr (_norm gmina)), ("unit", u),
        ("population", up.population), ("note", .jstr "Dane z BDL (GUS).")]⟩ := by
      simp only [bdl_basic, if_neg hg, hu, hv]
    rw [hb]
    exact ⟨rfl, rfl, rfl, rfl, _, rfl⟩

/-- C8 witness: the four statuses at concrete inputs. -/
theorem bdl_basic_contract_witness :
    (bdl_basic (some "  ") ⟨fun _ => none, none, JVal.jnull⟩).status = 400 ∧
    (bdl_basic (some "X") ⟨fun _ => none, none, JVal.jnull⟩).status = 404 ∧
    (bdl_basic (some "X") ⟨fun _ => some (JVal.jstr "u"), none, JVal.jnull⟩).status = 500 ∧
    (bdl_basic (some "X") ⟨fun _ => some (JVal.jstr "u"), some "148190", JVal.jint 5⟩).status
      = 200 :=
  ⟨(bdl_basic_contract ⟨fun _ => none, none, JVal.jnull⟩ (some "  ")).1 (by decide),
   (bdl_basic_contract ⟨fun _ => none, none, JVal.jnull⟩ (some "X")).2.1 (by decide) rfl,
   (bdl_basic_contract ⟨fun _ => some (JVal.jstr "u"), none, JVal.jnull⟩ (some "X")).2.2.1
     (JVal.jstr "u") (by decide) rfl rfl,
   ((bdl_basic_contract ⟨fun _ => some (JVal.jstr "u"), some "148190", JVal.jint 5⟩
     (some "X")).2.2.2 (JVal.jstr "u") "148190" (by decide) rfl rfl).1⟩

/-- On a non-empty candidate list the resolver yields some member of
the list. -/
theorem pick_best_mem (items : List Candidate) (m g p w : String) (hne : items ≠ []) :
    ∃ c, _pick_best_locality items m g p w = some c ∧ c ∈ items := by
  obtain ⟨h, t, hsort, _, hfind⟩ :=
    insertionSort_head_firstMax
      (score (_safe_lower (some m)) (_safe_lower (some g)) (_safe_lower (some p))
        (_safe_lower (some w))) items hne
  refine ⟨h, ?_, List.mem_of_find?_eq_some hfind⟩
  simp only [_pick_best_locality, if_neg hne, hsort, List.head?]

/-- Inverting a cache hit: the store was untouched and held a fresh
entry. -/
theorem cache_get_hit {β : Type} (cache : CacheT β) (now : ℚ) (key : String) (v : β)
    (c2 : CacheT β) (h : _cache_get cache now key = (some v, c2)) :
    c2 = cache ∧ ∃ ts, lookupKey cache key = some (ts, v) ∧ now - ts ≤ CACHE_TTL_SECONDS := by
  rcases hl : lookupKey cache key with _ | ⟨ts, val⟩
  · have hM : _cache_get cache now key = (none, cache) := by
      unfold _cache_get
      rw [hl]
    rw [hM] at h
    exact absurd (congrArg Prod.fst h) (by simp)
  · by_cases hexp : now - ts > CACHE_TTL_SECONDS
    · have hM : _cache_get cache now key = (none, pyDelKey cache key) := by
        unfold _cache_get
        rw [hl]
        exact if_pos hexp
      rw [hM] at h
      exact absurd (congrArg Prod.fst h) (by simp)
    · have hM : _cache_get cache now key = (some val, cache) := by
        unfold _cache_get
        rw [hl]
        exact if_neg hexp
      rw [hM] at h
      have h1 := congrArg Prod.fst h
      have h2 := congrArg Prod.snd h
      simp only at h1 h2
      have hv : val = v := Option.some_inj.mp h1
      subst hv
      exact ⟨h2.symm, ts, rfl, by linarith [not_lt.mp hexp]⟩

/-- C9 (amended): on a non-empty candidate list `_pick_best_locality`
always returns some member of the list (none only on the empty list);
however, the "Brak dopasowania." branch guards Python falsiness of the
selected record (`if not best:`), not only `None`, so it is reachable
when the best-scored candidate is an empty record; it is dead only when
every candidate of a successful non-empty search result is truthy (has
at least one key). -/
theorem pick_best_total_and_brak_guard :
    (∀ (items : List Candidate) (m g p w : String), items ≠ [] →
      ∃ c, _pick_best_locality items m g p w = some c ∧ c ∈ items) ∧
    (∀ (req : Req) (cache : CacheT JVal) (now : ℚ) (up : Upstream) (L : LocResponse)
      (resp : HttpResp) (cache2 : CacheT JVal) (n : Nat),
      (_cache_get cache now (reqKey req)).1 = none →
      up.localities = .ok L →
      (∀ c ∈ locItems L, candTruthy c = true) →
      bdl_population req cache now up = .ok (resp, cache2, n) →
      jget resp.body "message" ≠ some (.jstr "Brak dopasowania.")) := by
  have hjstr : ∀ s1 s2 : String, s1 ≠ s2 →
      (some (JVal.jstr s1) : Option JVal) ≠ some (JVal.jstr s2) := by
    intro s1 s2 hne hcon
    apply hne
    injection hcon with h1
    injection h1
  refine ⟨pick_best_mem, ?_⟩
  intro req cache now up L resp cache2 n hmiss hupL htr hrun
  by_cases hm : _norm req.miejscowosc = ""
  · have heval : bdl_population req cache now up = .ok (⟨400, badRequestBody⟩, cache, 0) := by
      simp only [bdl_population, if_pos hm]
    have hE := heval.symm.trans hrun
    simp only [Except.ok.injEq, Prod.mk.injEq] at hE
    rw [← hE.1]
    intro hcon
    exact Option.noConfusion hcon
  · rcases hcg : _cache_get cache now (reqKey req) with ⟨r1, c2⟩
    have hr1 : r1 = none := by
      have := congrArg Prod.fst hcg
      simp only at this
      rw [← this]
      exact hmiss
    subst hr1
    by_cases hit : locItems L = []
    · have heval : bdl_population req cache now up =
          .ok (⟨200, notFoundBody (_norm req.miejscowosc)⟩,
            _cache_set c2 now (reqKey req) (notFoundBody (_norm req.miejscowosc)), 1) := by
        simp only [bdl_population, if_neg hm, hcg, hupL, if_pos hit]
      have hE := heval.symm.trans hrun
      simp only [Except.ok.injEq, Prod.mk.injEq] at hE
      rw [← hE.1]
      exact hjstr _ _ (by decide)
    · obtain ⟨c, hc, hcm⟩ := pick_best_mem (locItems L) (_norm req.miejscowosc)
        (_norm req.gmina) (_norm req.powiat) (_norm req.woj) hit
      have hct : ¬ candTruthy c = false := by
        simp [htr c hcm]
      by_cases hid : c.id.getD "" = ""
      · have heval : bdl_population req cache now up =
            .ok (⟨200, noIdBody (_norm req.miejscowosc)⟩,
              _cache_set c2 now (reqKey req) (noIdBody (_norm req.miejscowosc)), 1) := by
          simp only [bdl_population, if_neg hm, hcg, hupL, if_neg hit, hc, if_neg hct,
            if_pos hid]
        have hE := heval.symm.trans hrun
        simp only [Except.ok.injEq, Prod.mk.injEq] at hE
        rw [← hE.1]
        exact hjstr _ _ (by decide)
      · cases hdata : up.dataByUnit (c.id.getD "")
            (if _norm req.year = "" then none else some (_norm req.year)) with
        | error e =>
          have heval : bdl_population req cache now up =
              .ok (⟨502, dataErrorBody e (c.id.getD "")⟩, c2, 2) := by
            simp only [bdl_population, if_neg hm, hcg, hupL, if_neg hit, hc, if_neg hct,
              if_neg hid, hdata]
          have hE := heval.symm.trans hrun
          simp only [Except.ok.injEq, Prod.mk.injEq] at hE
          rw [← hE.1]
          intro hcon
          exact Option.noConfusion hcon
        | ok dj =>
          cases hex : _extract_latest_value dj with
          | error pe =>
            have heval : bdl_population req cache now up = .error pe := by
              simp only [bdl_population, if_neg hm, hcg, hupL, if_neg hit, hc, if_neg hct,
                if_neg hid, hdata, hex]
            rw [heval] at hrun
            exact absurd hrun (by simp)
          | ok pr =>
            obtain ⟨v, y⟩ := pr
            have heval : bdl_population req cache now up =
                .ok (⟨200, successBody req c v y⟩,
                  _cache_set c2 now (reqKey req) (successBody req c v y), 2) := by
              simp only [bdl_population, if_neg hm, hcg, hupL, if_neg hit, hc, if_neg hct,
                if_neg hid, hdata, hex]
            have hE := heval.symm.trans hrun
            simp only [Except.ok.injEq, Prod.mk.injEq] at hE
            rw [← hE.1]
            intro hcon
            exact Option.noConfusion hcon

/-- C9 witness: the resolver applied to a concrete singleton list, and
the handler-level guarantee at a concrete run whose only candidate is
truthy (the handler then takes the no-id branch, not the dead one). -/
theorem pick_best_total_and_brak_guard_witness :
    (∃ c, _pick_best_locality [{ name := some "Wola" }] "Wola" "" "" "" = some c ∧
      c ∈ [({ name := some "Wola" } : Candidate)]) ∧
    jget (HttpResp.mk 200 (noIdBody "X")).body "message" ≠
      some (.jstr "Brak dopasowania.") :=
  ⟨pick_best_total_and_brak_guard.1 [{ name := some "Wola" }] "Wola" "" "" ""
      (by simp),
   pick_best_total_and_brak_guard.2 ⟨some "X", none, none, none, none⟩ [] 0
      ⟨.ok ⟨some [{ name := some "Wola" }], none⟩, fun _ _ => .error "down"⟩
      ⟨some [{ name := some "Wola" }], none⟩ ⟨200, noIdBody "X"⟩
      [("pop::X::::::::", ((0 : ℚ), noIdBody "X"))] 1 rfl rfl (by decide) rfl⟩

/-- C9 counterexample: the guarded branch is *not* unreachable — with a
non-empty search result whose single candidate is the empty record, the
resolver returns that record (not none), Python falsiness fires, and on
a cache miss the handler answers with the "Brak dopasowania." body. -/
theorem brak_branch_reachable :
    locItems ⟨some [{}], none⟩ ≠ [] ∧
    bdl_population ⟨some "x", none, none, none, none⟩ [] 0
        ⟨.ok ⟨some [{}], none⟩, fun _ _ => .error "x"⟩ =
      .ok (⟨200, brakBody "x"⟩, [("pop::x::::::::", ((0 : ℚ), brakBody "x"))], 1) ∧
    jget (brakBody "x") "message" = some (.jstr "Brak dopasowania.") :=
  ⟨by decide, rfl, rfl⟩

/-- C10 (amended): on every completed request, a 502 response writes
nothing to the cache — the cache is exactly the post-lookup store (the
lookup itself may have lazily purged an expired entry, which the
claim's "left unchanged" wording misses) — while every 200 response
(including `found: false` negatives) leaves the response body stored
under the request's cache key; hence within the TTL an identical query
retries a failed upstream call but serves a cached negative answer. -/
theorem response_cache_discipline (req : Req) (cache : CacheT JVal) (now : ℚ) (up : Upstream)
    (st : Nat) (body : JVal) (cache2 : CacheT JVal) (n : Nat)
    (hrun : bdl_population req cache now up = .ok (⟨st, body⟩, cache2, n)) :
    (st = 502 → cache2 = (_cache_get cache now (reqKey req)).2) ∧
    (st = 200 → ∃ ts, lookupKey cache2 (reqKey req) = some (ts, body)) := by
  by_cases hm : _norm req.miejscowosc = ""
  · have heval : bdl_population req cache now up = .ok (⟨400, badRequestBody⟩, cache, 0) := by
      simp only [bdl_population, if_pos hm]
    have hE := heval.symm.trans hrun
    simp only [Except.ok.injEq, Prod.mk.injEq, HttpResp.mk.injEq] at hE
    obtain ⟨⟨hst, hb⟩, hcache, hn⟩ := hE
    exact ⟨fun h502 => absurd (hst.trans h502) (by norm_num),
      fun h200 => absurd (hst.trans h200) (by norm_num)⟩
  · rcases hcg : _cache_get cache now (reqKey req) with ⟨r1, c2⟩
    cases r1 with
    | some v =>
      have heval : bdl_population req cache now up = .ok (⟨200, v⟩, c2, 0) := by
        simp only [bdl_population, if_neg hm, hcg]
      have hE := heval.symm.trans hrun
      simp only [Except.ok.injEq, Prod.mk.injEq, HttpResp.mk.injEq] at hE
      obtain ⟨⟨hst, hb⟩, hcache, hn⟩ := hE
      obtain ⟨hc2eq, ts, hlk, _⟩ := cache_get_hit cache now (reqKey req) v c2 hcg
      refine ⟨fun h502 => absurd (hst.trans h502) (by norm_num), fun _ => ⟨ts, ?_⟩⟩
      rw [← hcache, ← hb, hc2eq]
      exact hlk
    | none =>
      cases hloc : up.localities with
      | error e =>
        have heval : bdl_population req cache now up = .ok (⟨502, locErrorBody e⟩, c2, 1) := by
          simp only [bdl_population, if_neg hm, hcg, hloc]
        have hE := heval.symm.trans hrun
        simp only [Except.ok.injEq, Prod.mk.injEq, HttpResp.mk.injEq] at hE
        obtain ⟨⟨hst, hb⟩, hcache, hn⟩ := hE
        exact ⟨fun _ => hcache.symm, fun h200 => absurd (hst.trans h200) (by norm_num)⟩
      | ok L =>
        by_cases hit : locItems L = []
        · have heval : bdl_population req cache now up =
              .ok (⟨200, notFoundBody (_norm req.miejscowosc)⟩,
                _cache_set c2 now (reqKey req) (notFoundBody (_norm req.miejscowosc)), 1) := by
            simp only [bdl_population, if_neg hm, hcg, hloc, if_pos hit]
          have hE := heval.symm.trans hrun
          simp only [Except.ok.injEq, Prod.mk.injEq, HttpResp.mk.injEq] at hE
          obtain ⟨⟨hst, hb⟩, hcache, hn⟩ := hE
          refine ⟨fun h502 => absurd (hst.trans h502) (by norm_num), fun _ => ⟨now, ?_⟩⟩
          rw [← hcache, ← hb]
          exact lookup_setKey_self c2 (reqKey req) _
        · obtain ⟨c, hc, _⟩ := pick_best_mem (locItems L) (_norm req.miejscowosc)
            (_norm req.gmina) (_norm req.powiat) (_norm req.woj) hit
          by_cases hct : candTruthy c = false
          · have heval : bdl_population req cache now up =
                .ok (⟨200, brakBody (_norm req.miejscowosc)⟩,
                  _cache_set c2 now (reqKey req) (brakBody (_norm req.miejscowosc)), 1) := by
              simp only [bdl_population, if_neg hm, hcg, hloc, if_neg hit, hc, if_pos hct]
            have hE := heval.symm.trans hrun
            simp only [Except.ok.injEq, Prod.mk.injEq, HttpResp.mk.injEq] at hE
            obtain ⟨⟨hst, hb⟩, hcache, hn⟩ := hE
            refine ⟨fun h502 => absurd (hst.trans h502) (by norm_num), fun _ => ⟨now, ?_⟩⟩
            rw [← hcache, ← hb]
            exact lookup_setKey_self c2 (reqKey req) _
          · by_cases hid : c.id.getD "" = ""
            · have heval : bdl_population req cache now up =
                  .ok (⟨200, noIdBody (_norm req.miejscowosc)⟩,
                    _cache_set c2 now (reqKey req) (noIdBody (_norm req.miejscowosc)), 1) := by
                simp only [bdl_population, if_neg hm, hcg, hloc, if_neg hit, hc, if_neg hct,
                  if_pos hid]
              have hE := heval.symm.trans hrun
              simp only [Except.ok.injEq, Prod.mk.injEq, HttpResp.mk.injEq] at hE
              obtain ⟨⟨hst, hb⟩, hcache, hn⟩ := hE
              refine ⟨fun h502 => absurd (hst.trans h502) (by norm_num), fun _ => ⟨now, ?_⟩⟩
              rw [← hcache, ← hb]
              exact lookup_setKey_self c2 (reqKey req) _
            · cases hdata : up.dataByUnit (c.id.getD "")
                  (if _norm req.year = "" then none else some (_norm req.year)) with
              | error e =>
                have heval : bdl_population req cache now up =
                    .ok (⟨502, dataErrorBody e (c.id.getD "")⟩, c2, 2) := by
                  simp only [bdl_population, if_neg hm, hcg, hloc, if_neg hit, hc, if_neg hct,
                    if_neg hid, hdata]
                have hE := heval.symm.trans hrun
                simp only [Except.ok.injEq, Prod.mk.injEq, HttpResp.mk.injEq] at hE
                obtain ⟨⟨hst, hb⟩, hcache, hn⟩ := hE
                exact ⟨fun _ => hcache.symm, fun h200 => absurd (hst.trans h200) (by norm_num)⟩
              | ok dj =>
                cases hex : _extract_latest_value dj with
                | error pe =>
                  have heval : bdl_population req cache now up = .error pe := by
                    simp only [bdl_population, if_neg hm, hcg, hloc, if_neg hit, hc,
                      if_neg hct, if_neg hid, hdata, hex]
                  rw [heval] at hrun
                  exact absurd hrun (by simp)
                | ok pr =>
                  obtain ⟨v, y⟩ := pr
                  have heval : bdl_population req cache now up =
                      .ok (⟨200, successBody req c v y⟩,
                        _cache_set c2 now (reqKey req) (successBody req c v y), 2) := by
                    simp only [bdl_population, if_neg hm, hcg, hloc, if_neg hit, hc,
                      if_neg hct, if_neg hid, hdata, hex]
                  have hE := heval.symm.trans hrun
                  simp only [Except.ok.injEq, Prod.mk.injEq, HttpResp.mk.injEq] at hE
                  obtain ⟨⟨hst, hb⟩, hcache, hn⟩ := hE
                  refine ⟨fun h502 => absurd (hst.trans h502) (by norm_num),
                    fun _ => ⟨now, ?_⟩⟩
                  rw [← hcache, ← hb]
                  exact lookup_setKey_self c2 (reqKey req) _

/-- C10 witness: a stored negative (`found: false`) 200 response is
present in the cache under the request's key afterwards. -/
theorem response_cache_discipline_witness :
    ∃ ts, lookupKey [("pop::X::::::::", ((0 : ℚ), notFoundBody "X"))]
        (reqKey ⟨some "X", none, none, none, none⟩) = some (ts, notFoundBody "X") :=
  (response_cache_discipline ⟨some "X", none, none, none, none⟩ [] 0
    ⟨.ok ⟨some [], none⟩, fun _ _ => .error "x"⟩ 200 (notFoundBody "X")
    [("pop::X::::::::", ((0 : ℚ), notFoundBody "X"))] 1 rfl).2 rfl

/-- C10 counterexample: with an expired entry under the request's key
and a failing upstream, the handler answers 502 and the cache is *not*
left unchanged — the lazy purge during the lookup removed the expired
entry. -/
theorem error_response_purges_expired_entry :
    bdl_population ⟨some "x", none, none, none, none⟩
      [("pop::x::::::::", ((0 : ℚ), JVal.jnull))] 86401
      ⟨.error "boom", fun _ _ => .error "boom"⟩ =
      .ok (⟨502, locErrorBody "boom"⟩, [], 1) ∧
    ([] : CacheT JVal) ≠ [("pop::x::::::::", ((0 : ℚ), JVal.jnull))] := by
  constructor
  · have hget : _cache_get [("pop::x::::::::", ((0 : ℚ), JVal.jnull))] 86401
        (reqKey ⟨some "x", none, none, none, none⟩) = (none, []) := by
      have hlk : lookupKey [("pop::x::::::::", ((0 : ℚ), JVal.jnull))]
          (reqKey ⟨some "x", none, none, none, none⟩) = some (0, JVal.jnull) := rfl
      simp only [_cache_get, hlk]
      rw [if_pos (by norm_num [CACHE_TTL_SECONDS])]
      rfl
    simp only [bdl_population, hget]
    rfl
  · intro hcon
    exact List.noConfusion hcon

end BdlApp
